import Mathlib

/-!
Verification of `src/external_lib/dylib.c`.

The repository consists of a single exported C function

    int32_t dyloading_add(int32_t a, int32_t b, char *result)
    {
        printf("[External dyloading] Hello %s\n", result);
        int32_t sum = a + b;
        sprintf(result,"[External dyloading] The result (%d + %d) is %d!", a, b, sum);
        return sum;
    }

We model byte buffers as `List Char` (one `Char` per byte), C strings as
the bytes before the first NUL, `int32_t` values as integers in
`[-2^31, 2^31)` with wrap-around addition, and the `%d` conversion of
`printf`/`sprintf` as an explicit decimal rendering.  Standard output is
modelled as the list of lines emitted by the call (the function performs
a single `printf`, so the list has one element).
-/

set_option maxRecDepth 8000

/-- The NUL byte that terminates C strings. -/
def NUL : Char := Char.ofNat 0

/-- Decimal digit characters of a natural number, most significant digit
first; `fuel` bounds the recursion depth (any `fuel ≥ n` gives the same
answer).  `natDecAux fuel 0 = []`: the leading-zero-free digit string of
zero is empty at this level. -/
def natDecAux : Nat → Nat → List Char
  | _, 0 => []
  | 0, _ + 1 => []
  | fuel + 1, n + 1 =>
      natDecAux fuel ((n + 1) / 10) ++ [Char.ofNat (48 + (n + 1) % 10)]

/-- Decimal representation of a natural number (`"0"` for zero), as printed
by C `%d` for nonnegative arguments. -/
def natDec (n : Nat) : List Char :=
  if n = 0 then ['0'] else natDecAux n n

/-- Decimal representation of an integer, as printed by C `%d`: a minus
sign followed by the digits of the magnitude for negative values. -/
def intDec (n : Int) : List Char :=
  if n < 0 then '-' :: natDec (-n).toNat else natDec n.toNat

/-- Reduction of an integer into the signed 32-bit range `[-2^31, 2^31)`
modulo `2^32`: the two's-complement wrap-around of `int32_t` addition. -/
def wrap32 (x : Int) : Int := (x + 2 ^ 31) % 2 ^ 32 - 2 ^ 31

/-- The representable range of `int32_t`. -/
def int32Range (x : Int) : Prop := -(2 ^ 31) ≤ x ∧ x < 2 ^ 31

instance (x : Int) : Decidable (int32Range x) := by
  unfold int32Range; infer_instance

/-- The contents of the C string held in a byte buffer: the bytes before
the first NUL. -/
def cstr (buf : List Char) : List Char := buf.takeWhile (fun c => c != NUL)

/-- `sprintf(buf, ...)` producing the text `msg`: writes `msg` followed by
a terminating NUL at the start of `buf`; every byte past the terminator is
untouched. -/
def writeCString (buf msg : List Char) : List Char :=
  msg ++ NUL :: buf.drop (msg.length + 1)

/-- The text produced by
`sprintf(result, "[External dyloading] The result (%d + %d) is %d!", a, b, sum)`. -/
def fmtMsg (a b sum : Int) : List Char :=
  "[External dyloading] The result (".data ++ intDec a ++ " + ".data ++
    intDec b ++ ") is ".data ++ intDec sum ++ "!".data

/-- The observable outcome of one call to `dyloading_add`: the returned
value, the lines written to standard output, and the final buffer bytes. -/
structure DyState where
  ret : Int
  stdout : List (List Char)
  buf : List Char
deriving DecidableEq

/-- Shallow embedding of `dyloading_add` (src/external_lib/dylib.c,
lines 8–16).  The `printf` reads the buffer before `sprintf` overwrites
it; the sum is computed with wrap-around 32-bit signed arithmetic. -/
def dyloading_add (a b : Int) (result : List Char) : DyState :=
  let firstOut := "[External dyloading] Hello ".data ++ cstr result ++ ['\n']
  let sum := wrap32 (a + b)
  { ret := sum
    stdout := [firstOut]
    buf := writeCString result (fmtMsg a b sum) }

/-- A process world seen by a call: the standard-output trace, the caller's
buffer, and an abstract component `rest` standing for every other piece of
program state (files, network, environment, globals).  `dyloading_add`
touches no global state, so a call only appends to the trace and rewrites
the buffer. -/
structure World (α : Type) where
  stdoutTrace : List (List Char)
  buffer : List Char
  rest : α

/-- Running `dyloading_add` inside a world: the returned value together
with the updated world. -/
def dyloading_add_call {α : Type} (a b : Int) (w : World α) : Int × World α :=
  let s := dyloading_add a b w.buffer
  (s.ret, ⟨w.stdoutTrace ++ s.stdout, s.buf, w.rest⟩)

/-! ### Decimal rendering lemmas -/

/-- Numeric value of a digit string (most significant digit first). -/
def decodeDigits (l : List Char) : Nat :=
  l.foldl (fun acc c => 10 * acc + (c.toNat - 48)) 0

lemma toNat_ofNat_small (n : Nat) (h : n < 55296) : (Char.ofNat n).toNat = n := by
  have hv : Nat.isValidChar n := Or.inl h
  simp [Char.ofNat, Char.ofNatAux, Char.toNat, hv, UInt32.toNat, BitVec.toNat_ofNatLt]

lemma decodeDigits_append_singleton (l : List Char) (c : Char) :
    decodeDigits (l ++ [c]) = 10 * decodeDigits l + (c.toNat - 48) := by
  simp [decodeDigits, List.foldl_append]

lemma mem_natDecAux {fuel n : Nat} {c : Char} (hc : c ∈ natDecAux fuel n) :
    48 ≤ c.toNat ∧ c.toNat ≤ 57 := by
  induction fuel generalizing n with
  | zero => cases n <;> simp [natDecAux] at hc
  | succ fuel ih =>
    cases n with
    | zero => simp [natDecAux] at hc
    | succ m =>
      rw [natDecAux, List.mem_append] at hc
      rcases hc with hc | hc
      · exact ih hc
      · rw [List.mem_singleton] at hc
        subst hc
        have hm : (m + 1) % 10 < 10 := Nat.mod_lt _ (by norm_num)
        rw [toNat_ofNat_small _ (by omega)]
        omega

lemma decode_natDecAux : ∀ fuel n, n ≤ fuel → decodeDigits (natDecAux fuel n) = n := by
  intro fuel
  induction fuel with
  | zero =>
    intro n hn
    interval_cases n
    simp [natDecAux, decodeDigits]
  | succ fuel ih =>
    intro n hn
    cases n with
    | zero => simp [natDecAux, decodeDigits]
    | succ m =>
      have hdiv : (m + 1) / 10 ≤ fuel := by omega
      rw [natDecAux, decodeDigits_append_singleton, ih _ hdiv,
        toNat_ofNat_small _ (by omega)]
      omega

lemma natDecAux_ne_nil {fuel n : Nat} (h1 : 1 ≤ n) (h2 : n ≤ fuel) :
    natDecAux fuel n ≠ [] := by
  cases fuel with
  | zero => omega
  | succ fuel =>
    cases n with
    | zero => omega
    | succ m => rw [natDecAux]; simp

lemma natDecAux_head_ne_zero :
    ∀ fuel n, 1 ≤ n → n ≤ fuel → (natDecAux fuel n).head? ≠ some '0' := by
  intro fuel
  induction fuel with
  | zero => intro n h1 h2; omega
  | succ fuel ih =>
    intro n h1 h2
    cases n with
    | zero => omega
    | succ m =>
      rw [natDecAux]
      by_cases hq : (m + 1) / 10 = 0
      · have hm : (m + 1) % 10 = m + 1 := by omega
        rw [hq]
        cases fuel <;>
          · simp only [natDecAux, List.nil_append, List.head?_cons]
            intro hcontra
            have h1 := congrArg Char.toNat (Option.some.inj hcontra)
            rw [toNat_ofNat_small _ (by omega)] at h1
            have h0 : ('0' : Char).toNat = 48 := by decide
            omega
      · have hne : natDecAux fuel ((m + 1) / 10) ≠ [] :=
          natDecAux_ne_nil (by omega) (by omega)
        cases hrec : natDecAux fuel ((m + 1) / 10) with
        | nil => exact absurd hrec hne
        | cons x xs =>
          have := ih ((m + 1) / 10) (by omega) (by omega)
          rw [hrec] at this
          simpa using this

lemma natDecAux_length :
    ∀ fuel n d, n ≤ fuel → n < 10 ^ d → (natDecAux fuel n).length ≤ d := by
  intro fuel
  induction fuel with
  | zero =>
    intro n d hn _
    interval_cases n
    simp [natDecAux]
  | succ fuel ih =>
    intro n d hn hd
    cases n with
    | zero => simp [natDecAux]
    | succ m =>
      cases d with
      | zero => simp at hd
      | succ e =>
        rw [natDecAux, List.length_append, List.length_singleton]
        have hdiv : (m + 1) / 10 < 10 ^ e := by
          have h10 : 10 ^ (e + 1) = 10 ^ e * 10 := pow_succ 10 e
          rw [Nat.div_lt_iff_lt_mul (by norm_num)]
          omega
        have := ih ((m + 1) / 10) e (by omega) hdiv
        omega

lemma natDec_ne_nil (n : Nat) : natDec n ≠ [] := by
  rw [natDec]
  by_cases h : n = 0
  · simp [h]
  · rw [if_neg h]; exact natDecAux_ne_nil (by omega) le_rfl

lemma mem_natDec {n : Nat} {c : Char} (hc : c ∈ natDec n) :
    48 ≤ c.toNat ∧ c.toNat ≤ 57 := by
  rw [natDec] at hc
  by_cases h : n = 0
  · rw [if_pos h, List.mem_singleton] at hc
    subst hc; decide
  · rw [if_neg h] at hc
    exact mem_natDecAux hc

lemma decode_natDec (n : Nat) : decodeDigits (natDec n) = n := by
  rw [natDec]
  by_cases h : n = 0
  · simp [h, decodeDigits]
  · rw [if_neg h]; exact decode_natDecAux n n le_rfl

lemma natDec_head_eq_zero {n : Nat} (h : (natDec n).head? = some '0') :
    natDec n = ['0'] := by
  by_cases h0 : n = 0
  · simp [natDec, h0]
  · rw [natDec, if_neg h0] at h
    exact absurd h (natDecAux_head_ne_zero n n (by omega) le_rfl)

lemma natDec_length {n d : Nat} (h1 : 1 ≤ d) (h2 : n < 10 ^ d) :
    (natDec n).length ≤ d := by
  rw [natDec]
  by_cases h : n = 0
  · simp [h]; omega
  · rw [if_neg h]; exact natDecAux_length n n d le_rfl h2

/-- Modelled from the spec's words (for comparison with the code-derived
`intDec`): `s` is the decimal textual form of the integer `x`, with no
leading zeros and a standard minus sign for negative values. -/
def specDecimalRepr (x : Int) (s : List Char) : Prop :=
  if x < 0 then
    ∃ d, s = '-' :: d ∧ d ≠ [] ∧ (∀ c ∈ d, 48 ≤ c.toNat ∧ c.toNat ≤ 57) ∧
      (decodeDigits d : Int) = -x ∧ d.head? ≠ some '0'
  else
    s ≠ [] ∧ (∀ c ∈ s, 48 ≤ c.toNat ∧ c.toNat ≤ 57) ∧
      (decodeDigits s : Int) = x ∧ (s.head? = some '0' → s = ['0'])

/-- The `%d` rendering is the standard decimal textual form. -/
lemma intDec_specDecimalRepr (x : Int) : specDecimalRepr x (intDec x) := by
  rw [specDecimalRepr, intDec]
  by_cases hx : x < 0
  · rw [if_pos hx, if_pos hx]
    refine ⟨natDec (-x).toNat, rfl, natDec_ne_nil _, fun c hc => mem_natDec hc, ?_, ?_⟩
    · rw [decode_natDec, Int.toNat_of_nonneg (by omega)]
    · intro hhead
      have h1 := natDec_head_eq_zero hhead
      have h2 := decode_natDec (-x).toNat
      rw [h1] at h2
      have h3 : decodeDigits ['0'] = 0 := by decide
      rw [h3] at h2
      omega
  · rw [if_neg hx, if_neg hx]
    refine ⟨natDec_ne_nil _, fun c hc => mem_natDec hc, ?_, natDec_head_eq_zero⟩
    rw [decode_natDec, Int.toNat_of_nonneg (by omega)]

lemma mem_intDec {x : Int} {c : Char} (hc : c ∈ intDec x) :
    c.toNat = 45 ∨ (48 ≤ c.toNat ∧ c.toNat ≤ 57) := by
  rw [intDec] at hc
  by_cases hx : x < 0
  · rw [if_pos hx, List.mem_cons] at hc
    rcases hc with hc | hc
    · subst hc; left; decide
    · right; exact mem_natDec hc
  · rw [if_neg hx] at hc
    right; exact mem_natDec hc

lemma intDec_ne_NUL {x : Int} {c : Char} (hc : c ∈ intDec x) : c ≠ NUL := by
  intro h
  have h0 : NUL.toNat = 0 := by decide
  rcases mem_intDec hc with h1 | h1 <;> rw [h, h0] at h1 <;> omega

lemma intDec_length {x : Int} (h : int32Range x) : (intDec x).length ≤ 11 := by
  rcases h with ⟨hlo, hhi⟩
  rw [intDec]
  by_cases hx : x < 0
  · rw [if_pos hx, List.length_cons]
    have hb : x.toNat < 10 ^ 10 := by omega
    have : (-x).toNat < 10 ^ 10 := by omega
    have := natDec_length (n := (-x).toNat) (by norm_num) this
    omega
  · rw [if_neg hx]
    have : x.toNat < 10 ^ 10 := by omega
    have := natDec_length (n := x.toNat) (by norm_num) this
    omega

/-! ### C-string and buffer lemmas -/

lemma cstr_append_nul (l r : List Char) (h : NUL ∉ l) :
    cstr (l ++ NUL :: r) = l := by
  induction l with
  | nil => simp [cstr, List.takeWhile]
  | cons x xs ih =>
    have hx : x ≠ NUL := fun hc => h (hc ▸ List.mem_cons_self x xs)
    have hxs : NUL ∉ xs := fun hc => h (List.mem_cons_of_mem x hc)
    rw [List.cons_append, cstr, List.takeWhile_cons]
    simp only [bne_iff_ne, ne_eq, hx, not_false_eq_true, if_true]
    exact congrArg (x :: ·) (ih hxs)

lemma NUL_not_mem_fmtMsg (a b sum : Int) : NUL ∉ fmtMsg a b sum := by
  intro h
  rw [fmtMsg] at h
  simp only [List.mem_append] at h
  have hfix1 : NUL ∉ "[External dyloading] The result (".data := by decide
  have hfix2 : NUL ∉ " + ".data := by decide
  have hfix3 : NUL ∉ ") is ".data := by decide
  have hfix4 : NUL ∉ "!".data := by decide
  rcases h with ((((((h | h) | h) | h) | h) | h) | h)
  · exact hfix1 h
  · exact intDec_ne_NUL h rfl
  · exact hfix2 h
  · exact intDec_ne_NUL h rfl
  · exact hfix3 h
  · exact intDec_ne_NUL h rfl
  · exact hfix4 h

/-! ### Wrap-around arithmetic lemmas -/

lemma wrap32_int32Range (x : Int) : int32Range (wrap32 x) := by
  have h1 : 0 ≤ (x + 2 ^ 31) % 2 ^ 32 := Int.emod_nonneg _ (by norm_num)
  have h2 : (x + 2 ^ 31) % 2 ^ 32 < 2 ^ 32 := Int.emod_lt_of_pos _ (by norm_num)
  rw [int32Range, wrap32]
  omega

lemma wrap32_eq_self {x : Int} (h : int32Range x) : wrap32 x = x := by
  rcases h with ⟨h1, h2⟩
  rw [wrap32, Int.emod_eq_of_lt (by omega) (by omega)]
  omega

lemma wrap32_dvd_sub (x : Int) : (2 ^ 32 : Int) ∣ wrap32 x - x :=
  ⟨-((x + 2 ^ 31) / 2 ^ 32), by rw [wrap32, Int.emod_def]; ring⟩

/-- After a call, the C string held in the buffer is exactly the formatted
message. -/
lemma cstr_dyloading_buf (a b : Int) (result : List Char) :
    cstr (dyloading_add a b result).buf = fmtMsg a b (wrap32 (a + b)) := by
  have h := cstr_append_nul (fmtMsg a b (wrap32 (a + b)))
    (result.drop ((fmtMsg a b (wrap32 (a + b))).length + 1))
    (NUL_not_mem_fmtMsg a b _)
  simpa [dyloading_add, writeCString] using h

/-- The formatted message together with its NUL terminator fits in 76
bytes whenever the operands are `int32_t` values. -/
lemma fmtMsg_length_le (a b : Int) (ha : int32Range a) (hb : int32Range b) :
    (fmtMsg a b (wrap32 (a + b))).length + 1 ≤ 76 := by
  have la := intDec_length ha
  have lb := intDec_length hb
  have ls := intDec_length (wrap32_int32Range (a + b))
  rw [fmtMsg]
  simp only [List.length_append, List.length_cons, List.length_nil]
  omega

/-! ### Claims -/

/-- Claim C1: for every pair of 32-bit signed integers `a` and `b` whose
sum does not overflow the 32-bit signed range, `dyloading_add a b result`
returns exactly `a + b`. -/
theorem C1_returns_exact_sum (a b : Int) (result : List Char)
    (ha : int32Range a) (hb : int32Range b) (hs : int32Range (a + b)) :
    (dyloading_add a b result).ret = a + b := by
  simp only [dyloading_add]
  exact wrap32_eq_self hs

theorem C1_witness :
    (dyloading_add 2 3 (List.replicate 76 NUL)).ret = 2 + 3 :=
  C1_returns_exact_sum 2 3 (List.replicate 76 NUL)
    (by decide) (by decide) (by decide)

/-- Claim C2: for non-overflowing `int32_t` inputs the buffer afterwards
holds exactly the string
`[External dyloading] The result (<a> + <b>) is <sum>!`, where the three
numbers are rendered in their standard decimal textual form (no leading
zeros, standard minus sign for negatives), the latter property being
witnessed by `specDecimalRepr`. -/
theorem C2_buffer_exact_format (a b : Int) (result : List Char)
    (ha : int32Range a) (hb : int32Range b) (hs : int32Range (a + b)) :
    cstr (dyloading_add a b result).buf =
      "[External dyloading] The result (".data ++ intDec a ++ " + ".data ++
        intDec b ++ ") is ".data ++ intDec (a + b) ++ "!".data ∧
    specDecimalRepr a (intDec a) ∧ specDecimalRepr b (intDec b) ∧
    specDecimalRepr (a + b) (intDec (a + b)) := by
  refine ⟨?_, intDec_specDecimalRepr a, intDec_specDecimalRepr b,
    intDec_specDecimalRepr _⟩
  rw [cstr_dyloading_buf, wrap32_eq_self hs, fmtMsg]

theorem C2_witness :
    cstr (dyloading_add 2 3 (List.replicate 76 NUL)).buf =
      "[External dyloading] The result (".data ++ intDec 2 ++ " + ".data ++
        intDec 3 ++ ") is ".data ++ intDec (2 + 3) ++ "!".data ∧
    specDecimalRepr 2 (intDec 2) ∧ specDecimalRepr 3 (intDec 3) ∧
    specDecimalRepr (2 + 3) (intDec (2 + 3)) :=
  C2_buffer_exact_format 2 3 (List.replicate 76 NUL)
    (by decide) (by decide) (by decide)

/-- Claim C3: every call writes exactly one line to standard output, namely
`[External dyloading] Hello ` followed by the C string held in the buffer
before the call (the pre-call contents: `cstr result` is computed before
the buffer is overwritten). -/
theorem C3_stdout_pre_call_echo (a b : Int) (result : List Char) :
    (dyloading_add a b result).stdout.length = 1 ∧
    (dyloading_add a b result).stdout =
      ["[External dyloading] Hello ".data ++ cstr result ++ ['\n']] :=
  ⟨rfl, rfl⟩

/-- Claim C4: the three concrete scenarios from the specification, run on
a 76-byte zeroed buffer. -/
theorem C4_concrete_scenarios :
    ((dyloading_add 2 3 (List.replicate 76 NUL)).ret = 5 ∧
      cstr (dyloading_add 2 3 (List.replicate 76 NUL)).buf =
        "[External dyloading] The result (2 + 3) is 5!".data) ∧
    ((dyloading_add (-7) 2 (List.replicate 76 NUL)).ret = -5 ∧
      cstr (dyloading_add (-7) 2 (List.replicate 76 NUL)).buf =
        "[External dyloading] The result (-7 + 2) is -5!".data) ∧
    ((dyloading_add 0 0 (List.replicate 76 NUL)).ret = 0 ∧
      cstr (dyloading_add 0 0 (List.replicate 76 NUL)).buf =
        "[External dyloading] The result (0 + 0) is 0!".data) := by
  decide

/-- Claim C5: for every pair of `int32_t` operands, also when the true sum
overflows, the returned value is the sum wrapped into the signed 32-bit
range (it differs from the mathematical sum by a multiple of `2^32` and
lies in `[-2^31, 2^31)`), and the very same wrapped value is the `<sum>`
printed into the buffer; there is no overflow check. -/
theorem C5_wraparound_sum (a b : Int) (result : List Char)
    (ha : int32Range a) (hb : int32Range b) :
    (dyloading_add a b result).ret = wrap32 (a + b) ∧
    int32Range (wrap32 (a + b)) ∧
    (2 ^ 32 : Int) ∣ wrap32 (a + b) - (a + b) ∧
    cstr (dyloading_add a b result).buf = fmtMsg a b (wrap32 (a + b)) :=
  ⟨rfl, wrap32_int32Range _, wrap32_dvd_sub _, cstr_dyloading_buf a b result⟩

theorem C5_witness :
    (dyloading_add 2147483647 1 (List.replicate 76 NUL)).ret =
      wrap32 (2147483647 + 1) ∧
    int32Range (wrap32 (2147483647 + 1)) ∧
    (2 ^ 32 : Int) ∣ wrap32 (2147483647 + 1) - (2147483647 + 1) ∧
    cstr (dyloading_add 2147483647 1 (List.replicate 76 NUL)).buf =
      fmtMsg 2147483647 1 (wrap32 (2147483647 + 1)) :=
  C5_wraparound_sum 2147483647 1 (List.replicate 76 NUL)
    (by decide) (by decide)

/-- Claim C6: the function is deterministic and stateless: two calls with
identical arguments and identical pre-call buffer contents produce
identical return values, buffers and standard-output lines; the outcome
is a function of the arguments alone, so no hidden state can influence
it. -/
theorem C6_deterministic_stateless (a b : Int) (r1 r2 : List Char)
    (h : r1 = r2) :
    (dyloading_add a b r1).ret = (dyloading_add a b r2).ret ∧
    (dyloading_add a b r1).buf = (dyloading_add a b r2).buf ∧
    (dyloading_add a b r1).stdout = (dyloading_add a b r2).stdout := by
  subst h; exact ⟨rfl, rfl, rfl⟩

theorem C6_witness :
    (dyloading_add 2 3 []).ret = (dyloading_add 2 3 []).ret ∧
    (dyloading_add 2 3 []).buf = (dyloading_add 2 3 []).buf ∧
    (dyloading_add 2 3 []).stdout = (dyloading_add 2 3 []).stdout :=
  C6_deterministic_stateless 2 3 [] [] rfl

/-- Claim C7: no error is ever signalled: for every pair of `int32_t`
operands the function runs to completion and produces an outcome (return
value, output line, buffer); the embedding has no error value, matching
the absence of any error path in the source. -/
theorem C7_total_no_error (a b : Int) (result : List Char)
    (ha : int32Range a) (hb : int32Range b) :
    ∃ s : DyState, dyloading_add a b result = s ∧ s.ret = wrap32 (a + b) :=
  ⟨dyloading_add a b result, rfl, rfl⟩

theorem C7_witness :
    ∃ s : DyState, dyloading_add 2 3 [] = s ∧ s.ret = wrap32 (2 + 3) :=
  C7_total_no_error 2 3 [] (by decide) (by decide)

/-- Claim C8: the only side effects of a call are appending one line to
the standard-output trace and rewriting the caller's buffer: every other
piece of program state (the `rest` component of the world: files, network,
environment, persisted state) is unchanged. -/
theorem C8_side_effects_frame {α : Type} (a b : Int) (w : World α) :
    (dyloading_add_call a b w).2.rest = w.rest ∧
    (dyloading_add_call a b w).2.stdoutTrace =
      w.stdoutTrace ++
        ["[External dyloading] Hello ".data ++ cstr w.buffer ++ ['\n']] ∧
    (dyloading_add_call a b w).2.buffer = (dyloading_add a b w.buffer).buf ∧
    (dyloading_add_call a b w).1 = (dyloading_add a b w.buffer).ret :=
  ⟨rfl, rfl, rfl, rfl⟩

/-- Claim C9 as stated is false: `sprintf` also writes the terminating NUL
byte, which sits exactly at the offset equal to the formatted message
length.  Concretely, with `a = 2`, `b = 3` and a buffer of 75 `'x'` bytes
followed by a NUL, the formatted message has length 45 and the byte at
offset 45 changes from `'x'` to NUL. -/
theorem C9_counterexample :
    (fmtMsg 2 3 (wrap32 (2 + 3))).length = 45 ∧
    (List.replicate 75 'x' ++ [NUL])[45]? = some 'x' ∧
    (dyloading_add 2 3 (List.replicate 75 'x' ++ [NUL])).buf[45]? =
      some NUL := by
  decide

/-- Claim C9, amended: every byte at an offset strictly beyond the
terminating NUL — that is, at offset at least the formatted message length
plus one — retains the value it had before the call. -/
theorem C9_frame_beyond_terminator (a b : Int) (r : List Char) (i : Nat)
    (h : (fmtMsg a b (wrap32 (a + b))).length + 1 ≤ i) :
    (dyloading_add a b r).buf[i]? = r[i]? := by
  set msg := fmtMsg a b (wrap32 (a + b)) with hmsg
  have hbuf : (dyloading_add a b r).buf = msg ++ NUL :: r.drop (msg.length + 1) := by
    simp [dyloading_add, writeCString, hmsg]
  rw [hbuf, List.getElem?_append_right (by omega)]
  have hi : i - msg.length = (i - msg.length - 1) + 1 := by omega
  rw [hi, List.getElem?_cons_succ, List.getElem?_drop]
  congr 1
  omega

theorem C9_witness :
    (dyloading_add 2 3 (List.replicate 76 'x')).buf[50]? =
      (List.replicate 76 'x')[50]? :=
  C9_frame_beyond_terminator 2 3 (List.replicate 76 'x') 50 (by decide)

/-- Claim C10: for `int32_t` operands the text written into the buffer is
a NUL-terminated string of total size (terminator included) at most 76
bytes — 42 fixed characters, at most 11 characters per number, one NUL —
so a caller buffer of capacity at least 76 bytes is never overrun: its
length is preserved by the call. -/
theorem C10_buffer_capacity (a b : Int) (ha : int32Range a)
    (hb : int32Range b) :
    NUL ∉ fmtMsg a b (wrap32 (a + b)) ∧
    (fmtMsg a b (wrap32 (a + b))).length + 1 ≤ 76 ∧
    ∀ r : List Char, 76 ≤ r.length →
      (dyloading_add a b r).buf.length = r.length := by
  have hlen := fmtMsg_length_le a b ha hb
  refine ⟨NUL_not_mem_fmtMsg a b _, hlen, ?_⟩
  intro r hr
  have hbuf : (dyloading_add a b r).buf =
      fmtMsg a b (wrap32 (a + b)) ++
        NUL :: r.drop ((fmtMsg a b (wrap32 (a + b))).length + 1) := by
    simp [dyloading_add, writeCString]
  rw [hbuf]
  simp only [List.length_append, List.length_cons, List.length_drop]
  omega

theorem C10_witness :
    NUL ∉ fmtMsg 2 3 (wrap32 (2 + 3)) ∧
    (fmtMsg 2 3 (wrap32 (2 + 3))).length + 1 ≤ 76 ∧
    ∀ r : List Char, 76 ≤ r.length →
      (dyloading_add 2 3 r).buf.length = r.length :=
  C10_buffer_capacity 2 3 (by decide) (by decide)
